import Mathlib

/-!
Verification of the undervalued-stocks pipeline.

The development shallowly embeds the table transforms and control flow of the
Python sources:

* `fetch_undervalued_stocks.py` — valuation classifier and record construction
  (`process_stock`), the per-symbol cache merge (`cache_stock`), the
  undervalued-stocks cache update, and the HTTP status handling of
  `make_api_request` / `validate_api_key`;
* `remove_duplicates.py` / `filter_usd_stocks.py` — symbol deduplication
  (`drop_duplicates(subset=['Symbol'], keep='first')`), the case-insensitive
  USD currency filter, and the stage-level error flow;
* `analyze_quarterly_undervalued.py` — the market-cap threshold filter, the
  sector partitioner (`fillna('Unknown')`, grouping, per-sector files with
  sanitized filenames).

Tables are lists of `Row`; numeric spreadsheet cells are rationals; nullable
cells (pandas `NaN`) are `Option`-valued, so `pd.to_numeric(errors='coerce')`
and `na=False` string matching are modelled by `none` handling.
-/

namespace UndervaluedStocks

/-- A spreadsheet row with the columns the pipeline stages read.
`Symbol` is the ticker key; `Currency`, `Country`, `Sector` are nullable
string columns (`none` = pandas `NaN`); `MarketCap` is the numeric value of
the `Market Cap` cell after `pd.to_numeric(errors='coerce')` (`none` = `NaN`);
`Discount` is the `Discount %` column used as the ranking key. -/
structure Row where
  Symbol : String
  Currency : Option String
  Country : Option String
  Exchange : Option String
  Sector : Option String
  MarketCap : Option ℚ
  Discount : ℚ
  deriving DecidableEq

/-- Valuation statuses assigned by `process_stock`
(`fetch_undervalued_stocks.py`): the strings `"UNDERVALUED"`,
`"OVERVALUED (>20%)"` and `"FAIR"`. -/
inductive Status where
  | undervalued : Status
  | overvalued : Status
  | fair : Status
  deriving DecidableEq

/-- `OVERVALUED_BUFFER = 0.20` set in `find_undervalued_stocks`
(`fetch_undervalued_stocks.py` line 668). -/
def OVERVALUED_BUFFER : ℚ := 20 / 100

/-- The classification branch of `process_stock`
(`fetch_undervalued_stocks.py` lines 536-541):
`if current_price < dcf_value` → UNDERVALUED,
`elif current_price > dcf_value * (1 + OVERVALUED_BUFFER)` → OVERVALUED,
`else` → FAIR. -/
def classify (current_price dcf_value : ℚ) : Status :=
  if current_price < dcf_value then Status.undervalued
  else if current_price > dcf_value * (1 + OVERVALUED_BUFFER) then Status.overvalued
  else Status.fair

/-- Python's `round(x, 2)` on the exact rational value: round to two decimal
places (ties are immaterial to the claims; modelled as round-half-up). -/
def roundTo2 (x : ℚ) : ℚ := (round (x * 100) : ℚ) / 100

/-- The record `process_stock` builds for a stock with both price and DCF
available (`fetch_undervalued_stocks.py` lines 565-630): an UNDERVALUED
record carries `Discount % = round((D-P)/D*100, 2)` and `Premium % = 0`;
a FAIR record (`D ≤ P ≤ D*(1+OVERVALUED_BUFFER)`) carries `Discount % = 0`
and `Premium % = round((P-D)/D*100, 2)`; overvalued stocks are skipped
(no record is appended). -/
structure StockData where
  symbol : String
  currentPrice : ℚ
  dcfPrice : ℚ
  discountPct : ℚ
  premiumPct : ℚ
  valuationStatus : Status
  deriving DecidableEq

/-- Record construction of `process_stock` for a stock with price `P` and DCF
value `D` (both already known to be positive at this point in the code). -/
def mkStockData (symbol : String) (current_price dcf_value : ℚ) : Option StockData :=
  if current_price < dcf_value then
    some ⟨symbol, roundTo2 current_price, roundTo2 dcf_value,
      roundTo2 ((dcf_value - current_price) / dcf_value * 100), 0, Status.undervalued⟩
  else if dcf_value ≤ current_price ∧ current_price ≤ dcf_value * (1 + OVERVALUED_BUFFER) then
    some ⟨symbol, roundTo2 current_price, roundTo2 dcf_value,
      0, roundTo2 ((current_price - dcf_value) / dcf_value * 100), Status.fair⟩
  else
    none

/-- C1: for positive price `P` and DCF value `D`, the classifier applied in
`process_stock` returns UNDERVALUED iff `P < D`, FAIR iff
`D ≤ P ≤ D*(1+B)` with `B = 0.20`, and OVERVALUED iff `P > D*(1+B)`. -/
theorem c1_classifier_trichotomy (P D : ℚ) (hP : 0 < P) (hD : 0 < D) :
    (classify P D = Status.undervalued ↔ P < D) ∧
    (classify P D = Status.fair ↔ D ≤ P ∧ P ≤ D * (1 + OVERVALUED_BUFFER)) ∧
    (classify P D = Status.overvalued ↔ P > D * (1 + OVERVALUED_BUFFER)) := by
  have hB : OVERVALUED_BUFFER = 1 / 5 := by norm_num [OVERVALUED_BUFFER]
  rw [hB]
  unfold classify
  rw [hB]
  split_ifs with h1 h2
  all_goals refine ⟨?_, ?_, ?_⟩ <;> constructor <;> intro h <;> simp_all
  all_goals linarith

/-- Witness for C1 at `P = 90`, `D = 100`. -/
theorem c1_classifier_trichotomy_witness :
    (0 : ℚ) < 90 ∧ (0 : ℚ) < 100 ∧
    ((classify 90 100 = Status.undervalued ↔ (90 : ℚ) < 100) ∧
     (classify 90 100 = Status.fair ↔ (100 : ℚ) ≤ 90 ∧ (90 : ℚ) ≤ 100 * (1 + OVERVALUED_BUFFER)) ∧
     (classify 90 100 = Status.overvalued ↔ (90 : ℚ) > 100 * (1 + OVERVALUED_BUFFER))) :=
  ⟨by norm_num, by norm_num, c1_classifier_trichotomy 90 100 (by norm_num) (by norm_num)⟩

/-- C6: for every record `process_stock` appends (price `P` and DCF `D` both
positive), `Discount %` is `round((D-P)/D*100, 2)` when `P < D` and `0`
otherwise, and `Premium %` is `round((P-D)/D*100, 2)` when `D ≤ P` (the record
is FAIR; no overvalued record is ever built) and `0` otherwise. -/
theorem c6_discount_premium (s : String) (P D : ℚ) (hP : 0 < P) (hD : 0 < D)
    (r : StockData) (hr : mkStockData s P D = some r) :
    r.discountPct = (if P < D then roundTo2 ((D - P) / D * 100) else 0) ∧
    r.premiumPct = (if D ≤ P then roundTo2 ((P - D) / D * 100) else 0) := by
  unfold mkStockData at hr
  split_ifs at hr with h1 h2
  · cases hr
    exact ⟨by simp [h1], by simp [not_le.mpr h1]⟩
  · cases hr
    exact ⟨by simp [h1], by simp [h2.1]⟩

/-- Witness for C6 at `s = "AAPL"`, `P = 90`, `D = 100`. -/
theorem c6_discount_premium_witness :
    (0 : ℚ) < 90 ∧ (0 : ℚ) < 100 ∧
    mkStockData "AAPL" 90 100 =
      some ⟨"AAPL", 90, 100, 10, 0, Status.undervalued⟩ ∧
    ((⟨"AAPL", 90, 100, 10, 0, Status.undervalued⟩ : StockData).discountPct =
        (if (90 : ℚ) < 100 then roundTo2 ((100 - 90) / 100 * 100) else 0) ∧
     (⟨"AAPL", 90, 100, 10, 0, Status.undervalued⟩ : StockData).premiumPct =
        (if (100 : ℚ) ≤ 90 then roundTo2 ((90 - 100) / 100 * 100) else 0)) :=
  ⟨by norm_num, by norm_num, by norm_num [mkStockData, roundTo2],
   c6_discount_premium "AAPL" 90 100 (by norm_num) (by norm_num) _
     (by norm_num [mkStockData, roundTo2])⟩

/-! ### Deduplication (`drop_duplicates(subset=['Symbol'], keep='first')`)

`remove_duplicates.py` lines 42-56 and `filter_usd_stocks.py` lines 116-122
both call pandas `drop_duplicates(subset=['Symbol'], keep='first')`: scan the
rows in order and keep a row exactly when its key has not been seen yet. -/

/-- First-occurrence deduplication by a key, generalising pandas
`drop_duplicates(subset=[key], keep='first')`: `seen` is the set of keys
already kept. -/
def dedupKeyAux {α β : Type} [DecidableEq β] (key : α → β) : List β → List α → List α
  | _, [] => []
  | seen, a :: rest =>
    if key a ∈ seen then dedupKeyAux key seen rest
    else a :: dedupKeyAux key (key a :: seen) rest

/-- `df.drop_duplicates(subset=['Symbol'], keep='first')` on a table. -/
def remove_duplicates (t : List Row) : List Row := dedupKeyAux Row.Symbol [] t

theorem dedupKeyAux_sublist {α β : Type} [DecidableEq β] (key : α → β)
    (seen : List β) (t : List α) : (dedupKeyAux key seen t).Sublist t := by
  induction t generalizing seen with
  | nil => simp [dedupKeyAux]
  | cons a rest ih =>
    unfold dedupKeyAux
    split_ifs with h
    · exact (ih seen).cons a
    · exact (ih (key a :: seen)).cons₂ a

theorem dedupKeyAux_filter {α β : Type} [DecidableEq β] (key : α → β)
    (seen : List β) (t : List α) (b : β) :
    (dedupKeyAux key seen t).filter (fun a => decide (key a = b)) =
      if b ∈ seen then [] else (t.filter (fun a => decide (key a = b))).take 1 := by
  induction t generalizing seen with
  | nil => simp [dedupKeyAux]
  | cons a rest ih =>
    unfold dedupKeyAux
    by_cases hmem : key a ∈ seen
    · rw [if_pos hmem, ih seen]
      by_cases hb : b ∈ seen
      · simp [hb]
      · have hne : ¬(key a = b) := fun h => hb (h ▸ hmem)
        simp [hb, List.filter_cons, hne]
    · rw [if_neg hmem]
      by_cases hab : key a = b
      · subst hab
        simp [List.filter_cons, ih, hmem]
      · have hcons : (b ∈ key a :: seen) ↔ b ∈ seen := by
          constructor
          · intro h
            rcases List.mem_cons.mp h with h | h
            · exact absurd h.symm hab
            · exact h
          · exact List.mem_cons_of_mem _
        rw [List.filter_cons, if_neg (show ¬(decide (key a = b) = true) by simp [hab]),
          ih (key a :: seen), List.filter_cons,
          if_neg (show ¬(decide (key a = b) = true) by simp [hab])]
        simp only [hcons]

theorem dedupKeyAux_nodup {α β : Type} [DecidableEq β] (key : α → β)
    (seen : List β) (t : List α) :
    ((dedupKeyAux key seen t).map key).Nodup ∧
      ∀ a ∈ dedupKeyAux key seen t, key a ∉ seen := by
  induction t generalizing seen with
  | nil => simp [dedupKeyAux]
  | cons a rest ih =>
    unfold dedupKeyAux
    split_ifs with h
    · exact ih seen
    · obtain ⟨ihn, ihs⟩ := ih (key a :: seen)
      refine ⟨?_, ?_⟩
      · simp only [List.map_cons, List.nodup_cons]
        refine ⟨?_, ihn⟩
        intro hmem
        obtain ⟨x, hx, hkx⟩ := List.mem_map.mp hmem
        refine ihs x hx ?_
        rw [hkx]
        exact List.mem_cons_self _ _
      · intro x hx
        rcases List.mem_cons.mp hx with h1 | h1
        · rw [h1]
          exact h
        · intro hs
          exact ihs x h1 (List.mem_cons_of_mem _ hs)

theorem dedupKeyAux_eq_self {α β : Type} [DecidableEq β] (key : α → β)
    (seen : List β) (t : List α) (h1 : (t.map key).Nodup)
    (h2 : ∀ a ∈ t, key a ∉ seen) : dedupKeyAux key seen t = t := by
  induction t generalizing seen with
  | nil => simp [dedupKeyAux]
  | cons a rest ih =>
    rw [List.map_cons, List.nodup_cons] at h1
    unfold dedupKeyAux
    rw [if_neg (h2 a (List.mem_cons_self _ _))]
    congr 1
    apply ih
    · exact h1.2
    · intro x hx
      simp only [List.mem_cons]
      rintro (h | h)
      · refine h1.1 ?_
        rw [← h]
        exact List.mem_map_of_mem key hx
      · exact h2 x (List.mem_cons_of_mem _ hx) h

/-- C2: deduplication keeps, for each distinct `Symbol`, exactly the first
matching row of the input (in input order — the output is a sublist of the
input); it is idempotent; and it never increases the row count. -/
theorem c2_dedup_first_idempotent_shrinks (t : List Row) :
    (∀ s : String, (remove_duplicates t).filter (fun r => decide (r.Symbol = s)) =
      (t.filter (fun r => decide (r.Symbol = s))).take 1) ∧
    (remove_duplicates t).Sublist t ∧
    remove_duplicates (remove_duplicates t) = remove_duplicates t ∧
    (remove_duplicates t).length ≤ t.length := by
  refine ⟨?_, ?_, ?_, ?_⟩
  · intro s
    simpa using dedupKeyAux_filter Row.Symbol [] t s
  · exact dedupKeyAux_sublist Row.Symbol [] t
  · exact dedupKeyAux_eq_self Row.Symbol [] (remove_duplicates t)
      (dedupKeyAux_nodup Row.Symbol [] t).1 (by simp)
  · exact (dedupKeyAux_sublist Row.Symbol [] t).length_le

/-! ### Per-symbol cache merge (`cache_stock`, `fetch_undervalued_stocks.py`
lines 127-141) -/

/-- The `profile` dict cached per symbol (`sector`, `industry`,
`companyName`). -/
structure Profile where
  sector : String
  industry : String
  companyName : String
  deriving DecidableEq

/-- One entry of `stock_cache`: nested `price` / `dcf` / `profile` /
`timestamp` fields, each absent until first written. -/
structure CacheEntry where
  price : Option ℚ
  dcf : Option ℚ
  profile : Option Profile
  timestamp : Option String
  deriving DecidableEq

/-- `cache_stock(symbol, price=None, dcf=None, profile=None)`
(`fetch_undervalued_stocks.py` lines 127-141): create the entry if absent,
write each argument that is not `None` over the matching field, and always
refresh `timestamp`.  The cache is modelled as a partial map from symbols to
entries. -/
def cache_stock (cache : String → Option CacheEntry) (symbol : String)
    (price : Option ℚ) (dcf : Option ℚ) (profile : Option Profile)
    (now : String) : String → Option CacheEntry :=
  let e0 : CacheEntry :=
    match cache symbol with
    | some e => e
    | none => ⟨none, none, none, none⟩
  let e1 : CacheEntry :=
    match price with
    | some p => { e0 with price := some p }
    | none => e0
  let e2 : CacheEntry :=
    match dcf with
    | some d => { e1 with dcf := some d }
    | none => e1
  let e3 : CacheEntry :=
    match profile with
    | some pr => { e2 with profile := some pr }
    | none => e2
  fun s => if s = symbol then some { e3 with timestamp := some now } else cache s

/-- C3: `cache_stock` is monotonic — for every symbol, every field present in
that symbol's entry before the call is still present afterwards (possibly with
a new value), for any combination of `price` / `dcf` / `profile` arguments. -/
theorem c3_cache_merge_monotonic (cache : String → Option CacheEntry)
    (symbol : String) (price : Option ℚ) (dcf : Option ℚ)
    (profile : Option Profile) (now : String) (s : String) (e : CacheEntry)
    (he : cache s = some e) :
    ∃ e', cache_stock cache symbol price dcf profile now s = some e' ∧
      (e.price.isSome → e'.price.isSome) ∧
      (e.dcf.isSome → e'.dcf.isSome) ∧
      (e.profile.isSome → e'.profile.isSome) ∧
      (e.timestamp.isSome → e'.timestamp.isSome) := by
  by_cases hs : s = symbol
  · subst hs
    simp only [cache_stock, he]
    cases price <;> cases dcf <;> cases profile <;>
      exact ⟨_, rfl, by simp, by simp, by simp, by simp⟩
  · exact ⟨e, by simp [cache_stock, hs, he], fun h => h, fun h => h, fun h => h, fun h => h⟩

/-- Witness for C3: a cache holding only a `price` for `"AAPL"`, merged with a
new `dcf`, still has its `price` field. -/
theorem c3_cache_merge_monotonic_witness :
    (fun s => if s = "AAPL" then some (⟨some 10, none, none, none⟩ : CacheEntry) else none) "AAPL"
        = some (⟨some 10, none, none, none⟩ : CacheEntry) ∧
    ∃ e', cache_stock
        (fun s => if s = "AAPL" then some (⟨some 10, none, none, none⟩ : CacheEntry) else none)
        "AAPL" none (some 7) none "t1" "AAPL" = some e' ∧
      ((⟨some 10, none, none, none⟩ : CacheEntry).price.isSome → e'.price.isSome) ∧
      ((⟨some 10, none, none, none⟩ : CacheEntry).dcf.isSome → e'.dcf.isSome) ∧
      ((⟨some 10, none, none, none⟩ : CacheEntry).profile.isSome → e'.profile.isSome) ∧
      ((⟨some 10, none, none, none⟩ : CacheEntry).timestamp.isSome → e'.timestamp.isSome) :=
  ⟨by simp, c3_cache_merge_monotonic _ "AAPL" none (some 7) none "t1" "AAPL" _ (by simp)⟩

/-! ### Undervalued-stocks cache update (`process_stock`,
`fetch_undervalued_stocks.py` lines 581-588) -/

/-- The update of `undervalued_stocks_cache` performed under `stats_lock`:
find the first existing record whose `Symbol` equals the new record's symbol
(`next((i for i, s in enumerate(cache) if s.get('Symbol') == symbol), None)`);
replace it in place if found, append the record otherwise. -/
def updateUndervaluedCache : List Row → Row → List Row
  | [], r => [r]
  | s :: rest, r =>
    if s.Symbol = r.Symbol then r :: rest
    else s :: updateUndervaluedCache rest r

theorem updateUndervaluedCache_symbol_mem (cache : List Row) (r : Row) :
    ∀ x ∈ (updateUndervaluedCache cache r).map Row.Symbol,
      x = r.Symbol ∨ x ∈ cache.map Row.Symbol := by
  induction cache with
  | nil =>
    intro x hx
    simp only [updateUndervaluedCache, List.map_cons, List.map_nil] at hx
    exact Or.inl (List.mem_singleton.mp hx)
  | cons s rest ih =>
    intro x hx
    simp only [updateUndervaluedCache] at hx
    split_ifs at hx with h
    · rw [List.map_cons] at hx
      rcases List.mem_cons.mp hx with h1 | h1
      · exact Or.inl h1
      · right
        rw [List.map_cons]
        exact List.mem_cons_of_mem _ h1
    · rw [List.map_cons] at hx
      rcases List.mem_cons.mp hx with h1 | h1
      · right
        rw [List.map_cons, h1]
        exact List.mem_cons_self _ _
      · rcases ih x h1 with h2 | h2
        · exact Or.inl h2
        · right
          rw [List.map_cons]
          exact List.mem_cons_of_mem _ h2

theorem updateUndervaluedCache_nodup (cache : List Row) (r : Row)
    (h : (cache.map Row.Symbol).Nodup) :
    ((updateUndervaluedCache cache r).map Row.Symbol).Nodup := by
  induction cache with
  | nil => simp [updateUndervaluedCache]
  | cons s rest ih =>
    rw [List.map_cons, List.nodup_cons] at h
    unfold updateUndervaluedCache
    split_ifs with hsym
    · rw [List.map_cons, List.nodup_cons]
      exact ⟨hsym ▸ h.1, h.2⟩
    · rw [List.map_cons, List.nodup_cons]
      refine ⟨?_, ih h.2⟩
      intro hmem
      rcases updateUndervaluedCache_symbol_mem rest r _ hmem with h1 | h1
      · exact hsym h1
      · exact h.1 h1

theorem updateUndervaluedCache_replace (cache : List Row) (r : Row)
    (h : ∃ s ∈ cache, s.Symbol = r.Symbol) :
    (updateUndervaluedCache cache r).length = cache.length ∧
      r ∈ updateUndervaluedCache cache r := by
  induction cache with
  | nil => simp at h
  | cons s rest ih =>
    unfold updateUndervaluedCache
    split_ifs with hsym
    · simp
    · obtain ⟨x, hx, hxs⟩ := h
      rcases List.mem_cons.mp hx with h1 | h1
      · exact absurd (h1 ▸ hxs) hsym
      · obtain ⟨hlen, hmem⟩ := ih ⟨x, h1, hxs⟩
        exact ⟨by simp [hlen], List.mem_cons_of_mem _ hmem⟩

theorem updateUndervaluedCache_append (cache : List Row) (r : Row)
    (h : ∀ s ∈ cache, s.Symbol ≠ r.Symbol) :
    updateUndervaluedCache cache r = cache ++ [r] := by
  induction cache with
  | nil => simp [updateUndervaluedCache]
  | cons s rest ih =>
    unfold updateUndervaluedCache
    rw [if_neg (h s (List.mem_cons_self _ _))]
    rw [ih (fun x hx => h x (List.mem_cons_of_mem _ hx))]
    simp

/-- C10: if the undervalued-stocks cache has at most one record per `Symbol`,
then after the update it still does; a record whose `Symbol` is already
present is replaced in place (same length, new record present) rather than
appended, and a new `Symbol` is appended at the end. -/
theorem c10_undervalued_cache_unique (cache : List Row) (r : Row)
    (h : (cache.map Row.Symbol).Nodup) :
    ((updateUndervaluedCache cache r).map Row.Symbol).Nodup ∧
    ((∃ s ∈ cache, s.Symbol = r.Symbol) →
      (updateUndervaluedCache cache r).length = cache.length ∧
        r ∈ updateUndervaluedCache cache r) ∧
    ((∀ s ∈ cache, s.Symbol ≠ r.Symbol) →
      updateUndervaluedCache cache r = cache ++ [r]) :=
  ⟨updateUndervaluedCache_nodup cache r h,
   updateUndervaluedCache_replace cache r,
   updateUndervaluedCache_append cache r⟩

/-- A sample undervalued record, used by witnesses. -/
def rowA : Row := ⟨"AAA", some "USD", some "US", some "NYSE", some "Technology", some 2000000000, 10⟩

/-- `rowA` with an updated discount, same `Symbol`. -/
def rowA' : Row := ⟨"AAA", some "USD", some "US", some "NYSE", some "Technology", some 2000000000, 12⟩

/-- A second sample record with a different `Symbol`. -/
def rowB : Row := ⟨"BBB", some "USD", some "US", some "NASDAQ", some "Energy", some 3000000000, 7⟩

/-- Witness for C10: updating a one-record cache with a record for the same
symbol keeps it duplicate-free. -/
theorem c10_undervalued_cache_unique_witness :
    (([rowA] : List Row).map Row.Symbol).Nodup ∧
    (((updateUndervaluedCache [rowA] rowA').map Row.Symbol).Nodup ∧
     ((∃ s ∈ [rowA], s.Symbol = rowA'.Symbol) →
       (updateUndervaluedCache [rowA] rowA').length = ([rowA] : List Row).length ∧
         rowA' ∈ updateUndervaluedCache [rowA] rowA') ∧
     ((∀ s ∈ [rowA], s.Symbol ≠ rowA'.Symbol) →
       updateUndervaluedCache [rowA] rowA' = [rowA] ++ [rowA'])) :=
  ⟨by decide, c10_undervalued_cache_unique [rowA] rowA' (by decide)⟩

/-! ### USD currency filter (`filter_usd_stocks.py` lines 69-73) -/

/-- `usd_variations = ['USD', 'usd', 'Usd', 'US Dollar', 'US$', '$']`. -/
def usd_variations : List String := ["USD", "usd", "Usd", "US Dollar", "US$", "$"]

/-- Lower-cased character list of a string, for `case=False` matching. -/
def lowerChars (s : String) : List Char := s.toList.map Char.toLower

/-- Pandas `hay.str.contains(needle, case=False)` on a non-null cell:
case-insensitive substring containment. -/
def containsCI (hay needle : String) : Bool :=
  decide (lowerChars needle <:+: lowerChars hay)

/-- The row predicate of the USD filter (`filter_usd_stocks.py` lines 70-73):
`Currency.isin(usd_variations) | Currency.str.contains('USD', case=False,
na=False) | Currency.str.contains('US Dollar', case=False, na=False)`.
A null cell (`none`) matches nothing (`isin` is false on NaN; `na=False`). -/
def keepUSD : Option String → Bool
  | none => false
  | some c => usd_variations.contains c || containsCI c "USD" || containsCI c "US Dollar"

/-- The USD filtering step `df_usd = df[...]`. -/
def usdFilter (t : List Row) : List Row := t.filter (fun r => keepUSD r.Currency)

/-- C7: the USD filter is case-insensitive over `Currency`: `'usd'` and
`'USD'` cells are judged identically and both retained, and a row of the
input is retained exactly when its `Currency` satisfies the (case-insensitive)
predicate. -/
theorem c7_usd_filter_case_insensitive (t : List Row) (r : Row) :
    keepUSD (some "usd") = true ∧
    keepUSD (some "USD") = true ∧
    keepUSD (some "usd") = keepUSD (some "USD") ∧
    (r ∈ t → (r ∈ usdFilter t ↔ keepUSD r.Currency = true)) := by
  refine ⟨by decide, by decide, by decide, ?_⟩
  intro hmem
  constructor
  · intro h
    exact (List.mem_filter.mp h).2
  · intro h
    exact List.mem_filter.mpr ⟨hmem, h⟩

/-- A row whose `Currency` cell is lower-case `'usd'`. -/
def rowUsdLower : Row := ⟨"CCC", some "usd", some "US", some "NYSE", some "Technology", some 1500000000, 3⟩

/-- Witness for C7 on a one-row table with `Currency = 'usd'`. -/
theorem c7_usd_filter_case_insensitive_witness :
    rowUsdLower ∈ [rowUsdLower] ∧
    (keepUSD (some "usd") = true ∧
     keepUSD (some "USD") = true ∧
     keepUSD (some "usd") = keepUSD (some "USD") ∧
     (rowUsdLower ∈ [rowUsdLower] →
       (rowUsdLower ∈ usdFilter [rowUsdLower] ↔ keepUSD rowUsdLower.Currency = true))) :=
  ⟨List.mem_singleton.mpr rfl, c7_usd_filter_case_insensitive [rowUsdLower] rowUsdLower⟩

/-! ### Stage-level error flow of the table-filter scripts

`remove_duplicates.py` (`remove_duplicates`, lines 21-56) and
`filter_usd_stocks.py` (`filter_usd_stocks`, lines 24-122) return `None`
after printing an error when the input file is missing, when a required
column is missing, or when a filtering step leaves zero rows;
`filter_exchange_stocks.py` (`filter_stocks_by_exchange`, lines 57-104)
reports a missing Exchange column and skips just that file, counting all its
rows as removed. -/

/-- The distinct abort conditions of a table-filter stage (each prints a
message and returns `None` in the source). -/
inductive StageError where
  | missingFile : StageError
  | missingColumn : String → StageError
  | emptyResult : String → StageError
  deriving DecidableEq

/-- Whether a stage error is a missing-required-column error. -/
def StageError.isMissingColumn : StageError → Bool
  | StageError.missingColumn _ => true
  | _ => false

/-- A stage's input: whether the input spreadsheet file exists, its column
header, and its rows. -/
structure StageInput where
  fileExists : Bool
  columns : List String
  rows : List Row
  deriving DecidableEq

/-- `remove_duplicates()` (`remove_duplicates.py` lines 21-56): error if the
input file is missing; error if `'Symbol'` is not a column; otherwise
`drop_duplicates(subset=['Symbol'], keep='first')` (when no duplicates exist
the frame is returned unchanged, which coincides with the dedup). -/
def remove_duplicates_stage (inp : StageInput) : Except StageError (List Row) :=
  if !inp.fileExists then Except.error StageError.missingFile
  else if "Symbol" ∈ inp.columns then Except.ok (remove_duplicates inp.rows)
  else Except.error (StageError.missingColumn "Symbol")

/-- `us_variations` of `filter_usd_stocks.py` line 84. -/
def us_variations : List String :=
  ["US", "us", "Us", "USA", "usa", "U.S.", "U.S.A.", "United States",
   "United States of America"]

/-- The US-country row predicate (`filter_usd_stocks.py` lines 85-88):
`isin(us_variations)` or case-insensitive containment of `'United States'`,
`'USA'` or `'US'` (`na=False`). -/
def keepUS : Option String → Bool
  | none => false
  | some c =>
    us_variations.contains c || containsCI c "United States" ||
      containsCI c "USA" || containsCI c "US"

/-- Insert one row into a list sorted by `Discount` descending. -/
def insertRowDesc (r : Row) : List Row → List Row
  | [] => [r]
  | a :: as => if a.Discount < r.Discount then r :: a :: as else a :: insertRowDesc r as

/-- `sort_values('Discount %', ascending=False)`. -/
def sortByDiscountDesc : List Row → List Row
  | [] => []
  | a :: as => insertRowDesc a (sortByDiscountDesc as)

/-- `filter_usd_stocks()` (`filter_usd_stocks.py` lines 24-152): abort on a
missing input file, missing `Currency` or `Symbol` column, an empty USD
filter result, or (when a `Country` column exists) an empty US filter
result; otherwise dedup by `Symbol` and sort by `Discount %` descending. -/
def filter_usd_stocks (inp : StageInput) : Except StageError (List Row) :=
  if !inp.fileExists then Except.error StageError.missingFile
  else if "Currency" ∉ inp.columns then Except.error (StageError.missingColumn "Currency")
  else if "Symbol" ∉ inp.columns then Except.error (StageError.missingColumn "Symbol")
  else
    let df_usd := usdFilter inp.rows
    if df_usd.length = 0 then Except.error (StageError.emptyResult "No USD stocks found")
    else if "Country" ∈ inp.columns then
      let df_usd_us := df_usd.filter (fun r => keepUS r.Country)
      if df_usd_us.length = 0 then Except.error (StageError.emptyResult "No US stocks found")
      else Except.ok (sortByDiscountDesc (remove_duplicates df_usd_us))
    else Except.ok (sortByDiscountDesc (remove_duplicates df_usd))

/-- The Exchange-column lookup of `filter_stocks_by_exchange`
(`filter_exchange_stocks.py` lines 66-82): try the listed names in order,
then any column containing `'exchange'` case-insensitively. -/
def findExchangeColumn (columns : List String) : Option String :=
  match (["Exchange", "exchange", "EXCHANGE", "Stock Exchange",
          "Stock_Exchange"] : List String).find? (fun c => columns.contains c) with
  | some c => some c
  | none => columns.find? (fun c => containsCI c "exchange")

/-- The exchange row predicate (`filter_exchange_stocks.py` lines 90-92):
`astype(str).str.upper().str.contains('NYSE|NASDAQ|NYS|NSDQ', case=False)`;
a NaN cell stringifies to `'nan'`, which matches none of the alternatives. -/
def exchangeMatch : Option String → Bool
  | none => false
  | some s =>
    containsCI s "NYSE" || containsCI s "NASDAQ" || containsCI s "NYS" ||
      containsCI s "NSDQ"

/-- `filter_stocks_by_exchange(input_file, output_file)` on one sector file
(`filter_exchange_stocks.py` lines 57-104), returning
`(total, filtered, removed)`: with no Exchange column it reports and skips
the file (all rows counted removed); otherwise it keeps the NYSE/NASDAQ
rows. -/
def filter_stocks_by_exchange (columns : List String) (rows : List Row) :
    Nat × Nat × Nat :=
  match findExchangeColumn columns with
  | none => (rows.length, 0, rows.length)
  | some _ =>
    let kept := rows.filter (fun r => exchangeMatch r.Exchange)
    (rows.length, kept.length, rows.length - kept.length)

/-- A non-USD row (currency `EUR`). -/
def eurRow : Row :=
  ⟨"SAP", some "EUR", some "Germany", some "XETRA", some "Technology",
    some 2000000000, 5⟩

/-- A stage input whose required columns are all present but whose only row
is not USD-denominated. -/
def c8Input : StageInput := ⟨true, ["Symbol", "Currency"], [eurRow]⟩

/-- Counterexample to C8: with `Symbol` and `Currency` both present, the USD
filter stage still aborts — on an empty USD filter result — so the
table-filter stages do have an error state other than a missing required
column. -/
theorem c8_only_missing_column_counterexample :
    filter_usd_stocks c8Input = Except.error (StageError.emptyResult "No USD stocks found") ∧
    StageError.isMissingColumn (StageError.emptyResult "No USD stocks found") = false := by
  constructor
  · rfl
  · rfl

/-- C8 (amended): a missing required column does abort the stage with a
reported message (`remove_duplicates` on `Symbol`, `filter_usd_stocks` on
`Currency` and `Symbol`), and a missing Exchange column makes
`filter_stocks_by_exchange` skip just that file (all rows removed); but
these stages additionally abort on a missing input file (and
`filter_usd_stocks` on an empty filter result). -/
theorem c8_missing_column_aborts_stage (inp : StageInput) :
    (inp.fileExists = true → "Symbol" ∉ inp.columns →
      remove_duplicates_stage inp = Except.error (StageError.missingColumn "Symbol")) ∧
    (inp.fileExists = true → "Currency" ∉ inp.columns →
      filter_usd_stocks inp = Except.error (StageError.missingColumn "Currency")) ∧
    (inp.fileExists = true → "Currency" ∈ inp.columns → "Symbol" ∉ inp.columns →
      filter_usd_stocks inp = Except.error (StageError.missingColumn "Symbol")) ∧
    (findExchangeColumn inp.columns = none →
      filter_stocks_by_exchange inp.columns inp.rows =
        (inp.rows.length, 0, inp.rows.length)) ∧
    (inp.fileExists = false →
      remove_duplicates_stage inp = Except.error StageError.missingFile ∧
        filter_usd_stocks inp = Except.error StageError.missingFile) := by
  refine ⟨?_, ?_, ?_, ?_, ?_⟩
  · intro hf hcol
    simp [remove_duplicates_stage, hf, hcol]
  · intro hf hc
    simp [filter_usd_stocks, hf, hc]
  · intro hf hc hs
    simp [filter_usd_stocks, hf, hc, hs]
  · intro hx
    simp [filter_stocks_by_exchange, hx]
  · intro hf
    constructor
    · simp [remove_duplicates_stage, hf]
    · simp [filter_usd_stocks, hf]

/-- Witness for C8 (amended) at a file-present input with no columns. -/
theorem c8_missing_column_aborts_stage_witness :
    (StageInput.mk true [] []).fileExists = true ∧
    "Symbol" ∉ (StageInput.mk true [] []).columns ∧
    "Currency" ∉ (StageInput.mk true [] []).columns ∧
    remove_duplicates_stage (StageInput.mk true [] []) =
      Except.error (StageError.missingColumn "Symbol") ∧
    filter_usd_stocks (StageInput.mk true [] []) =
      Except.error (StageError.missingColumn "Currency") :=
  ⟨rfl, by decide, by decide,
   (c8_missing_column_aborts_stage (StageInput.mk true [] [])).1 rfl (by decide),
   (c8_missing_column_aborts_stage (StageInput.mk true [] [])).2.1 rfl (by decide)⟩

/-! ### HTTP status handling (`fetch_undervalued_stocks.py`)

`make_api_request` (lines 177-231) returns the response on success and `None`
on every failure — 401/403 (logged as an API-key error), 429, any other
status ≥ 400, timeouts — it never raises and never stops the run.
`find_undervalued_stocks` keeps iterating over the remaining symbols when a
call yields `None`; only `validate_api_key` (lines 926-966), run once before
any fetching, returns `False` on 401/403, in which case `__main__`
(lines 968-997) does not start the run at all. -/

/-- The outcome of one `make_api_request` call as a function of the HTTP
status code.  `abortRun` is the behaviour C5 asserts for 401/403; the source
never produces it — every failing branch just returns `None` (`softFail`). -/
inductive ReqOutcome where
  | success : ReqOutcome
  | softFail : ReqOutcome
  | abortRun : ReqOutcome
  deriving DecidableEq

/-- The status-code dispatch of `make_api_request`
(`fetch_undervalued_stocks.py` lines 190-223): 401/403 → log and return
`None`; 429 → log and return `None`; other ≥ 400 → log and return `None`;
otherwise return the response. -/
def handleStatus (status : Nat) : ReqOutcome :=
  if status = 401 ∨ status = 403 then ReqOutcome.softFail
  else if status = 429 then ReqOutcome.softFail
  else if 400 ≤ status then ReqOutcome.softFail
  else ReqOutcome.success

/-- The fetch loop of `find_undervalued_stocks`: every symbol's request is
handled independently (failures are caught per future, lines 777-780);
the loop never stops early on a failed call. -/
def runAll (statuses : List Nat) : List ReqOutcome := statuses.map handleStatus

/-- `validate_api_key()` (`fetch_undervalued_stocks.py` lines 926-966):
`False` exactly on HTTP 401/403 of the probe request; every other status
(and every exception) lets the run proceed. -/
def validate_api_key (status : Nat) : Bool :=
  if status = 200 then true
  else if status = 401 ∨ status = 403 then false
  else true

/-- `__main__` (lines 978-997): run `find_undervalued_stocks` only when the
upfront key validation succeeded; `none` means the run never starts. -/
def mainRun (validationStatus : Nat) (statuses : List Nat) :
    Option (List ReqOutcome) :=
  if validate_api_key validationStatus then some (runAll statuses) else none

/-- Counterexample to C5: a run whose second request receives HTTP 401 does
not abort — the 401 yields a soft failure (the call returns `None`) and the
third request is still made and processed, so the whole run completes all
three symbols. -/
theorem c5_auth_failure_aborts_counterexample :
    handleStatus 401 = ReqOutcome.softFail ∧
    handleStatus 401 ≠ ReqOutcome.abortRun ∧
    runAll [200, 401, 200] =
      [ReqOutcome.success, ReqOutcome.softFail, ReqOutcome.success] ∧
    (runAll [200, 401, 200]).length = 3 := by
  refine ⟨rfl, by decide, rfl, rfl⟩

/-- C5 (amended): a 401/403 on the upfront API-key validation is reported and
prevents the run from starting at all; a 401/403 received by a request during
the run is reported and treated as a failed fetch for that call only — the
run still processes every symbol. -/
theorem c5_auth_failure_handling (statuses : List Nat) :
    mainRun 401 statuses = none ∧
    mainRun 403 statuses = none ∧
    handleStatus 401 = ReqOutcome.softFail ∧
    handleStatus 403 = ReqOutcome.softFail ∧
    (runAll statuses).length = statuses.length := by
  refine ⟨rfl, rfl, rfl, rfl, List.length_map _ _⟩

/-! ### Sector organizer (`analyze_quarterly_undervalued.py`, `main`)

Lines 308-384: drop rows with missing/blank `Symbol`; coerce `Market Cap` to
numeric and keep rows with `Market Cap >= 1_000_000_000`; `fillna('Unknown')`
on `Sector`; then for each distinct sector value (in sorted order) write the
rows with that sector, sorted by `Discount %` descending, to
`<sanitized sector>.xlsx`. -/

/-- `df_processed['Sector'].fillna('Unknown')` on one row. -/
def fillSector (r : Row) : Row :=
  match r.Sector with
  | none => { r with Sector := some "Unknown" }
  | some _ => r

/-- The sector-filled table. -/
def fillUnknown (t : List Row) : List Row := t.map fillSector

/-- `df_processed['Sector'].unique()`: the distinct sector values in order of
first appearance (over the filled table, where every cell is non-null). -/
def uniqueSectors (t' : List Row) : List String :=
  dedupKeyAux id [] (t'.map fun r => r.Sector.getD "Unknown")

/-- `df_processed[df_processed['Sector'] == sector]`. -/
def sectorGroup (t' : List Row) (s : String) : List Row :=
  t'.filter (fun r => decide (r.Sector = some s))

/-- Lexicographic comparison on character lists (Python string `<` by code
point). -/
def charListLt : List Char → List Char → Bool
  | [], [] => false
  | [], _ :: _ => true
  | _ :: _, [] => false
  | a :: as, b :: bs => if a < b then true else if b < a then false else charListLt as bs

/-- Python `a < b` on strings. -/
def strLt (a b : String) : Bool := charListLt a.toList b.toList

/-- Insertion into a string list sorted ascending. -/
def insertStr (s : String) : List String → List String
  | [] => [s]
  | a :: as => if strLt s a then s :: a :: as else a :: insertStr s as

/-- Python `sorted(sectors)`. -/
def sortStr : List String → List String
  | [] => []
  | a :: as => insertStr a (sortStr as)

/-- Leading-space removal, one side of Python `.strip()` (after the character
filter only spaces remain as whitespace). -/
def dropLeadingSpaces : List Char → List Char
  | [] => []
  | c :: cs => if c = ' ' then dropLeadingSpaces cs else c :: cs

/-- Python `.strip()` on the filtered character list. -/
def trimSpaces (l : List Char) : List Char :=
  (dropLeadingSpaces (dropLeadingSpaces l).reverse).reverse

/-- The filename sanitizer of `main` (`analyze_quarterly_undervalued.py`
lines 370-374): keep only alphanumerics, space, `-`, `_`; strip; replace
spaces by `_`; default an empty result to `'Unknown'`. -/
def safe_sector_name (sector : String) : String :=
  let kept := sector.toList.filter fun c =>
    c.isAlphanum || c == ' ' || c == '-' || c == '_'
  let cleaned := String.mk ((trimSpaces kept).map fun c => if c = ' ' then '_' else c)
  if cleaned = "" then "Unknown" else cleaned

/-- The per-sector outputs, before writing: for each distinct sector in
sorted order, its rows sorted by `Discount %` descending. -/
def groupsOf (t : List Row) : List (String × List Row) :=
  (sortStr (uniqueSectors (fillUnknown t))).map fun s =>
    (s, sortByDiscountDesc (sectorGroup (fillUnknown t) s))

/-- `sector_df.to_excel(output_file)`: writing to an existing path overwrites
that file, otherwise it creates a new one.  The file system is an association
list from names to contents. -/
def writeFile (fs : List (String × List Row)) (name : String)
    (content : List Row) : List (String × List Row) :=
  if fs.any (fun p => p.1 == name) then
    fs.map (fun p => if p.1 == name then (name, content) else p)
  else fs ++ [(name, content)]

/-- The file-writing loop of `main` (lines 363-384): one
`<safe_sector_name>.xlsx` write per sector, in sorted sector order. -/
def runPartitionFiles (t : List Row) : List (String × List Row) :=
  (groupsOf t).foldl
    (fun fs g => writeFile fs (safe_sector_name g.1 ++ ".xlsx") g.2) []

/-- Rows with missing/blank `Symbol` are dropped
(`analyze_quarterly_undervalued.py` lines 316-319; a missing cell is modelled
as a whitespace-only string). -/
def validSymbolFilter (t : List Row) : List Row :=
  t.filter (fun r => !(r.Symbol.toList.all fun c => c.isWhitespace))

/-- The market-cap threshold filter (lines 321-333):
`pd.to_numeric(df['Market Cap'], errors='coerce')` then
`df[df['Market Cap'] >= 1_000_000_000]`; a `NaN` comparison is `False`, so
`none` cells are dropped. -/
def mcapFilter (t : List Row) : List Row :=
  t.filter (fun r =>
    match r.MarketCap with
    | some v => decide ((1000000000 : ℚ) ≤ v)
    | none => false)

/-- The table the sector organizer partitions: symbol-valid rows with market
cap at least one billion. -/
def analyze_filtered (t : List Row) : List Row := mcapFilter (validSymbolFilter t)

theorem fillSector_sector (r : Row) :
    (fillSector r).Sector = some (r.Sector.getD "Unknown") := by
  cases h : r.Sector <;> simp [fillSector, h]

theorem fillSector_marketCap (r : Row) :
    (fillSector r).MarketCap = r.MarketCap := by
  cases h : r.Sector <;> simp [fillSector, h]

theorem insertRowDesc_perm (r : Row) (l : List Row) :
    (insertRowDesc r l).Perm (r :: l) := by
  induction l with
  | nil => simp [insertRowDesc]
  | cons a as ih =>
    unfold insertRowDesc
    split_ifs with h
    · exact List.Perm.refl _
    · exact (ih.cons a).trans (List.Perm.swap r a as)

theorem sortByDiscountDesc_perm (l : List Row) :
    (sortByDiscountDesc l).Perm l := by
  induction l with
  | nil => simp [sortByDiscountDesc]
  | cons a as ih =>
    unfold sortByDiscountDesc
    exact (insertRowDesc_perm a (sortByDiscountDesc as)).trans (ih.cons a)

theorem insertStr_perm (s : String) (l : List String) :
    (insertStr s l).Perm (s :: l) := by
  induction l with
  | nil => simp [insertStr]
  | cons a as ih =>
    unfold insertStr
    split_ifs with h
    · exact List.Perm.refl _
    · exact (ih.cons a).trans (List.Perm.swap s a as)

theorem sortStr_perm (l : List String) : (sortStr l).Perm l := by
  induction l with
  | nil => simp [sortStr]
  | cons a as ih =>
    unfold sortStr
    exact (insertStr_perm a (sortStr as)).trans (ih.cons a)

theorem dedupKeyAux_mem_key {α β : Type} [DecidableEq β] (key : α → β)
    (seen : List β) (t : List α) (b : β) (hb : b ∈ t.map key) (hs : b ∉ seen) :
    b ∈ (dedupKeyAux key seen t).map key := by
  induction t generalizing seen with
  | nil => simp at hb
  | cons a rest ih =>
    rw [List.map_cons] at hb
    unfold dedupKeyAux
    split_ifs with h
    · rcases List.mem_cons.mp hb with h1 | h1
      · exact absurd (h1 ▸ h) hs
      · exact ih seen h1 hs
    · rw [List.map_cons]
      rcases List.mem_cons.mp hb with h1 | h1
      · rw [h1]
        exact List.mem_cons_self _ _
      · by_cases hba : b = key a
        · rw [hba]
          exact List.mem_cons_self _ _
        · refine List.mem_cons_of_mem _ (ih (key a :: seen) h1 ?_)
          intro hmem
          rcases List.mem_cons.mp hmem with h2 | h2
          · exact hba h2
          · exact hs h2

theorem uniqueSectors_nodup (t' : List Row) : (uniqueSectors t').Nodup := by
  have h := (dedupKeyAux_nodup (id : String → String) []
    (t'.map fun r => r.Sector.getD "Unknown")).1
  simpa [uniqueSectors] using h

theorem mem_uniqueSectors (t' : List Row) (r : Row) (hr : r ∈ t') :
    r.Sector.getD "Unknown" ∈ uniqueSectors t' := by
  have hb : r.Sector.getD "Unknown" ∈ (t'.map fun x => x.Sector.getD "Unknown") :=
    List.mem_map_of_mem _ hr
  have h := dedupKeyAux_mem_key (id : String → String) []
    (t'.map fun x => x.Sector.getD "Unknown") _ (by simpa using hb) (by simp)
  simpa [uniqueSectors] using h

theorem join_filter_perm (keys : List String) (t' : List Row)
    (hnd : keys.Nodup)
    (hcov : ∀ r ∈ t', ∃ s ∈ keys, r.Sector = some s) :
    (keys.map fun s => sectorGroup t' s).flatten.Perm t' := by
  induction keys generalizing t' with
  | nil =>
    cases t' with
    | nil => simp
    | cons r rest =>
      obtain ⟨s, hs, _⟩ := hcov r (List.mem_cons_self _ _)
      exact absurd hs (List.not_mem_nil s)
  | cons k ks ih =>
    rw [List.nodup_cons] at hnd
    rw [List.map_cons, List.flatten_cons]
    have hrest : (ks.map fun s => sectorGroup t' s) =
        ks.map fun s =>
          sectorGroup (t'.filter fun r => !decide (r.Sector = some k)) s := by
      apply List.map_congr_left
      intro s hs
      unfold sectorGroup
      rw [List.filter_filter]
      apply List.filter_congr
      intro r hr
      by_cases h : r.Sector = some s
      · have hsk : s ≠ k := fun hsk => hnd.1 (hsk ▸ hs)
        simp [h, hsk]
      · simp [h]
    rw [hrest]
    have hcov' : ∀ r ∈ t'.filter (fun r => !decide (r.Sector = some k)),
        ∃ s ∈ ks, r.Sector = some s := by
      intro r hr
      rw [List.mem_filter] at hr
      obtain ⟨s, hs, hss⟩ := hcov r hr.1
      rcases List.mem_cons.mp hs with h | h
      · exfalso
        have := hr.2
        rw [← h] at this
        simp [hss] at this
      · exact ⟨s, h, hss⟩
    have ihp := ih (t'.filter fun r => !decide (r.Sector = some k)) hnd.2 hcov'
    exact (ihp.append_left (sectorGroup t' k)).trans
      (List.filter_append_perm _ t')

theorem groupsOf_flatten_perm (t : List Row) :
    ((groupsOf t).map Prod.snd).flatten.Perm (fillUnknown t) := by
  unfold groupsOf
  rw [List.map_map]
  have hsortout : ((sortStr (uniqueSectors (fillUnknown t))).map
      (Prod.snd ∘ fun s => (s, sortByDiscountDesc (sectorGroup (fillUnknown t) s)))).flatten.Perm
      ((sortStr (uniqueSectors (fillUnknown t))).map
        (fun s => sectorGroup (fillUnknown t) s)).flatten := by
    induction sortStr (uniqueSectors (fillUnknown t)) with
    | nil => simp
    | cons k ks ih =>
      rw [List.map_cons, List.map_cons, List.flatten_cons, List.flatten_cons]
      exact (sortByDiscountDesc_perm _).append ih
  refine hsortout.trans ?_
  apply join_filter_perm
  · exact ((sortStr_perm _).nodup_iff).mpr (uniqueSectors_nodup _)
  · intro r hr
    obtain ⟨r₀, hr₀, hfill⟩ := List.mem_map.mp hr
    refine ⟨r.Sector.getD "Unknown", ?_, ?_⟩
    · exact ((sortStr_perm _).mem_iff).mpr (mem_uniqueSectors _ r hr)
    · rw [← hfill, fillSector_sector]
      simp

/-- C4 (amended): the sector organizer assigns each row of the (null-filled)
filtered table to exactly one sector group — null sectors to `'Unknown'` —
and the concatenation of the per-sector groups is a permutation of that
table (no row duplicated or dropped).  The per-sector *files* coincide with
the groups only when distinct sector values keep distinct sanitized
filenames; see the counterexample. -/
theorem c4_sector_partition (t : List Row) :
    (∀ r ∈ fillUnknown t,
      ∃! s, s ∈ uniqueSectors (fillUnknown t) ∧ r.Sector = some s) ∧
    ((groupsOf t).map Prod.snd).flatten.Perm (fillUnknown t) := by
  refine ⟨?_, groupsOf_flatten_perm t⟩
  intro r hr
  obtain ⟨r₀, hr₀, hfill⟩ := List.mem_map.mp hr
  refine ⟨r.Sector.getD "Unknown", ⟨mem_uniqueSectors _ r hr, ?_⟩, ?_⟩
  · rw [← hfill, fillSector_sector]
    simp
  · intro y hy
    have := hy.2
    rw [← hfill, fillSector_sector] at this
    injection this with h
    rw [← hfill, fillSector_sector]
    simp [h]

/-- A row with a null `Sector` cell. -/
def rowNoSector : Row :=
  ⟨"DDD", some "USD", some "US", some "NYSE", none, some 1200000000, 4⟩

/-- Witness for C4 (amended) on a two-row table with one null sector. -/
theorem c4_sector_partition_witness :
    fillSector rowNoSector ∈ fillUnknown [rowA, rowNoSector] ∧
    (∃! s, s ∈ uniqueSectors (fillUnknown [rowA, rowNoSector]) ∧
      (fillSector rowNoSector).Sector = some s) ∧
    ((groupsOf [rowA, rowNoSector]).map Prod.snd).flatten.Perm
      (fillUnknown [rowA, rowNoSector]) :=
  ⟨by decide,
   (c4_sector_partition [rowA, rowNoSector]).1 (fillSector rowNoSector) (by decide),
   (c4_sector_partition [rowA, rowNoSector]).2⟩

/-- A row whose sector `"A!"` sanitizes to filename `A.xlsx`. -/
def rowBang : Row :=
  ⟨"EEE", some "USD", some "US", some "NYSE", some "A!", some 1100000000, 2⟩

/-- A row whose distinct sector `"A?"` sanitizes to the same filename
`A.xlsx`. -/
def rowQue : Row :=
  ⟨"FFF", some "USD", some "US", some "NYSE", some "A?", some 1100000000, 1⟩

/-- Counterexample to C4 as stated: on a table with sectors `"A!"` and
`"A?"`, both sanitize to `A.xlsx`, the second write overwrites the first,
and the union of the per-sector output files has one row where the input has
two — the `"A!"` row is dropped from every output file. -/
theorem c4_union_of_files_counterexample :
    runPartitionFiles [rowBang, rowQue] = [("A.xlsx", [rowQue])] ∧
    ((runPartitionFiles [rowBang, rowQue]).map Prod.snd).flatten.length = 1 ∧
    (fillUnknown [rowBang, rowQue]).length = 2 ∧
    rowBang ∉ ((runPartitionFiles [rowBang, rowQue]).map Prod.snd).flatten ∧
    rowBang ∈ fillUnknown [rowBang, rowQue] := by
  refine ⟨rfl, rfl, rfl, by decide, by decide⟩

theorem writeFile_snd_mem (fs : List (String × List Row)) (name : String)
    (content : List Row) (p : String × List Row)
    (hp : p ∈ writeFile fs name content) : p ∈ fs ∨ p.2 = content := by
  unfold writeFile at hp
  split_ifs at hp with h
  · obtain ⟨q, hq, hpq⟩ := List.mem_map.mp hp
    by_cases hqn : q.1 == name
    · rw [if_pos hqn] at hpq
      right
      rw [← hpq]
    · rw [if_neg hqn] at hpq
      exact Or.inl (hpq ▸ hq)
  · rcases List.mem_append.mp hp with h1 | h1
    · exact Or.inl h1
    · right
      rw [List.mem_singleton.mp h1]

theorem foldl_writeFile_mem (gs : List (String × List Row))
    (fs : List (String × List Row)) (p : String × List Row)
    (hp : p ∈ gs.foldl
      (fun acc g => writeFile acc (safe_sector_name g.1 ++ ".xlsx") g.2) fs) :
    p ∈ fs ∨ ∃ g ∈ gs, p.2 = g.2 := by
  induction gs generalizing fs with
  | nil => exact Or.inl hp
  | cons g gs ih =>
    rw [List.foldl_cons] at hp
    rcases ih _ hp with h1 | h1
    · rcases writeFile_snd_mem _ _ _ _ h1 with h2 | h2
      · exact Or.inl h2
      · exact Or.inr ⟨g, List.mem_cons_self _ _, h2⟩
    · obtain ⟨g', hg', hpg⟩ := h1
      exact Or.inr ⟨g', List.mem_cons_of_mem _ hg', hpg⟩

/-- C9: every row appearing in any sector output file of the organizer has a
known market capitalization of at least one billion; a stock whose market cap
could not be fetched or parsed (a `NaN` cell) is removed by the
`Market Cap >= 1_000_000_000` filter and appears in no sector file. -/
theorem c9_unknown_mcap_never_in_sector_files (t : List Row)
    (f : String × List Row) (hf : f ∈ runPartitionFiles (analyze_filtered t))
    (r : Row) (hr : r ∈ f.2) :
    ∃ v, r.MarketCap = some v ∧ (1000000000 : ℚ) ≤ v := by
  unfold runPartitionFiles at hf
  rcases foldl_writeFile_mem _ _ _ hf with h1 | h1
  · exact absurd h1 (List.not_mem_nil f)
  · obtain ⟨g, hg, hfg⟩ := h1
    obtain ⟨s, _, hgs⟩ := List.mem_map.mp hg
    rw [hfg, ← hgs] at hr
    have hr' : r ∈ sectorGroup (fillUnknown (analyze_filtered t)) s :=
      ((sortByDiscountDesc_perm _).mem_iff).mp hr
    have hr'' : r ∈ fillUnknown (analyze_filtered t) :=
      (List.mem_filter.mp hr').1
    obtain ⟨r₀, hr₀, hfill⟩ := List.mem_map.mp hr''
    have hmc : r.MarketCap = r₀.MarketCap := by
      rw [← hfill, fillSector_marketCap]
    have hpred := (List.mem_filter.mp hr₀).2
    cases hv : r₀.MarketCap with
    | none => rw [hv] at hpred; simp at hpred
    | some v =>
      refine ⟨v, hmc.trans hv, ?_⟩
      rw [hv] at hpred
      simpa using hpred

/-- Witness for C9 on the one-row table `[rowA]` (market cap 2 billion). -/
theorem c9_unknown_mcap_never_in_sector_files_witness :
    (("Technology.xlsx", [rowA]) : String × List Row) ∈
        runPartitionFiles (analyze_filtered [rowA]) ∧
    rowA ∈ (("Technology.xlsx", [rowA]) : String × List Row).2 ∧
    ∃ v, rowA.MarketCap = some v ∧ (1000000000 : ℚ) ≤ v :=
  ⟨by decide, by decide,
   c9_unknown_mcap_never_in_sector_files [rowA] ("Technology.xlsx", [rowA])
     (by decide) rowA (by decide)⟩

end UndervaluedStocks
